import Mathlib

/-!
Verification of the PACOH-VI meta-learning core
(`meta_learn/GPR_meta_vi.py`, `src/random_gp.py`,
`experiments/hyperparam_search/meta_vi_hyperparam.py`).

The Python code is shallowly embedded: tensors become lists of reals,
batched tensors become lists of lists (the leading list is the batch
dimension), distributions become an inductive of the two families the
code uses (`Normal`, `LogNormal`), and Python exceptions / assertions
become `Except`-valued constructions.  Code of the repository that is
not part of the given sources (the `src.models` distribution and GP
utilities, `meta_learn.random_gp.RandomGPMeta`) is modelled from the
specification; each such definition carries a doc comment saying so.
-/

/-! ## Vector (1-d tensor) helpers: pointwise torch arithmetic -/

def vecAdd (v w : List ℝ) : List ℝ := List.zipWith (fun a b => a + b) v w

def vecSub (v w : List ℝ) : List ℝ := List.zipWith (fun a b => a - b) v w

def vecScale (c : ℝ) (v : List ℝ) : List ℝ := v.map (fun a => c * a)

/-- `torch.mean` of a 1-d tensor: sum divided by length. -/
noncomputable def vecMean (v : List ℝ) : ℝ := v.sum / v.length

/-! ## Distributions

The code uses `pyro.distributions.Normal` and `LogNormal`, always with
`.to_event(1)`, i.e. a diagonal product over the last axis whose
log-density is the coordinatewise sum of the scalar log-densities. -/

/-- Scalar Gaussian log-density `log N(x; mu, sigma)`. -/
noncomputable def normalLogPdf (mu sigma x : ℝ) : ℝ :=
  -((x - mu) ^ 2 / (2 * sigma ^ 2)) - Real.log sigma - Real.log (2 * Real.pi) / 2

/-- Scalar log-normal log-density: the density of `exp` of a Gaussian. -/
noncomputable def logNormalLogPdf (mu sigma x : ℝ) : ℝ :=
  normalLogPdf mu sigma (Real.log x) - Real.log x

/-- A `pyro` `Normal`/`LogNormal` with diagonal parameters, after
`.to_event(1)`: one independent distribution over a vector of length
`loc.length`. -/
inductive PDist where
  | normal (loc scale : List ℝ)
  | logNormal (loc scale : List ℝ)

/-- Event size (`event_shape[-1]`) of a member distribution. -/
def PDist.event_size : PDist → ℕ
  | .normal loc _ => loc.length
  | .logNormal loc _ => loc.length

/-- Joint log-density of a member distribution on one event vector:
coordinatewise sum of the scalar log-densities (`to_event(1)`). -/
noncomputable def PDist.logp : PDist → List ℝ → ℝ
  | .normal loc scale, v =>
      (((loc.zip scale).zip v).map (fun p => normalLogPdf p.1.1 p.1.2 p.2)).sum
  | .logNormal loc scale, v =>
      (((loc.zip scale).zip v).map (fun p => logNormalLogPdf p.1.1 p.1.2 p.2)).sum

/-- `pyro` mean of a member distribution (`Normal.mean` is `loc`,
`LogNormal.mean` is `exp (loc + scale^2 / 2)` coordinatewise). -/
noncomputable def PDist.meanv : PDist → List ℝ
  | .normal loc _ => loc
  | .logNormal loc scale =>
      List.zipWith (fun m s => Real.exp (m + s ^ 2 / 2)) loc scale

/-! ## CatDist

Modelled from the spec: `src.models.CatDist` is not among the given
source files.  Per the spec it wraps an ordered sequence of independent
distributions; `sample`/`rsample` draw each member independently and
concatenate along the trailing event axis, and `log_prob(value)` slices
`value` back into per-member segments using each member's known event
size, in construction order, and sums their log-densities. -/

/-- `CatDist.log_prob` on a single concatenated event vector. -/
noncomputable def catLogProb : List PDist → List ℝ → ℝ
  | [], _ => 0
  | d :: ds, v => d.logp (v.take d.event_size) + catLogProb ds (v.drop d.event_size)

/-- Modelled from the spec: a joint `CatDist` sample is the concatenation
of the member draws along the event axis. -/
def catSampleOfDraws (draws : List (List ℝ)) : List ℝ := draws.flatten

/-- Modelled from the spec: with a batch of values (any batch shape is a
list of event vectors once flattened), `CatDist.log_prob` applies to each
batch element independently. -/
noncomputable def catLogProbBatched (ds : List PDist) (vals : List (List ℝ)) : List ℝ :=
  vals.map (catLogProb ds)

/-- A draw of the joint `CatDist`: one sample list per member, each of
that member's event size. -/
def DrawsFit (ds : List PDist) (draws : List (List ℝ)) : Prop :=
  List.Forall₂ (fun (d : PDist) (s : List ℝ) => s.length = d.event_size) ds draws

lemma catLogProb_join (ds : List PDist) (draws : List (List ℝ))
    (h : DrawsFit ds draws) :
    catLogProb ds (catSampleOfDraws draws)
      = ((ds.zip draws).map (fun p => p.1.logp p.2)).sum := by
  induction h with
  | nil => simp [catSampleOfDraws, catLogProb]
  | @cons d s ds' draws' hlen htail ih =>
      have htake : ((s ++ draws'.flatten).take d.event_size) = s := by
        rw [← hlen]; exact List.take_left s draws'.flatten
      have hdrop : ((s ++ draws'.flatten).drop d.event_size) = draws'.flatten := by
        rw [← hlen]; exact List.drop_left s draws'.flatten
      simp only [catSampleOfDraws, List.flatten_cons, catLogProb, htake, hdrop,
        List.zip_cons_cons, List.map_cons, List.sum_cons]
      rw [← ih]
      rfl

/-! ## Exact-GP marginal log-likelihood

Modelled from the spec: `src.models.LearnedGPRegressionModel`,
`SEKernelLight`, `ConstantMeanLight`, `GaussianLikelihoodLight` and the
`gpytorch` exact marginal log-likelihood are not among the given source
files.  Per the spec, `VectorizedGP.forward(x, y, train=True)` computes,
for each batch element, the exact GP marginal log-likelihood of `y`
under a Gaussian with the constant mean and the squared-exponential
kernel with per-feature lengthscale, plus strictly positive observation
noise on the diagonal.  The model below is the `constant`-mean /
`SE`-kernel instantiation, the one exercised by the claims. -/

/-- Multivariate Gaussian log-density with mean `mu` and covariance `S`. -/
noncomputable def gaussianLogPdf (n : ℕ) (mu : Fin n → ℝ)
    (S : Matrix (Fin n) (Fin n) ℝ) (y : Fin n → ℝ) : ℝ :=
  -(∑ i, (y i - mu i) * Matrix.mulVec S⁻¹ (fun j => y j - mu j) i) / 2
    - Real.log S.det / 2 - (n : ℝ) * Real.log (2 * Real.pi) / 2

/-- Squared-exponential kernel with per-feature lengthscale `ls`. -/
noncomputable def sqExpKernel (ls x xp : List ℝ) : ℝ :=
  Real.exp (-(((x.zip xp).zip ls).map (fun p => ((p.1.1 - p.1.2) / p.2) ^ 2)).sum / 2)

/-- Covariance of the training targets: kernel matrix plus observation
noise on the diagonal. -/
noncomputable def covMatrix (ls : List ℝ) (noise : ℝ) (xs : List (List ℝ)) :
    Matrix (Fin xs.length) (Fin xs.length) ℝ :=
  fun i j => sqExpKernel ls (xs.getD i.1 []) (xs.getD j.1 []) + (if i = j then noise else 0)

/-- Marginal log-likelihood of one task `(x, y)` under the GP whose flat
parameter vector is `params`, laid out in schema order
`constant_mean` (size 1), `lengthscale` (size `d`), `noise` (size 1). -/
noncomputable def mll (d : ℕ) (params : List ℝ) (x : List (List ℝ)) (y : List ℝ) : ℝ :=
  gaussianLogPdf x.length (fun _ => params.getD 0 0)
    (covMatrix ((params.drop 1).take d) (params.getD (1 + d) 0) x)
    (fun i => y.getD i.1 0)

lemma gaussianLogPdf_one (mu : Fin 1 → ℝ) (S : Matrix (Fin 1) (Fin 1) ℝ) (y : Fin 1 → ℝ) :
    gaussianLogPdf 1 mu S y
      = -((y 0 - mu 0) * ((S 0 0)⁻¹ * (y 0 - mu 0))) / 2
        - Real.log (S 0 0) / 2 - Real.log (2 * Real.pi) / 2 := by
  have hinv : S⁻¹ = (S 0 0)⁻¹ • (1 : Matrix (Fin 1) (Fin 1) ℝ) := by
    rw [Matrix.inv_def, Matrix.adjugate_fin_one, Matrix.det_fin_one, Ring.inverse_eq_inv']
  rw [gaussianLogPdf, hinv, Matrix.det_fin_one]
  rw [Matrix.smul_mulVec_assoc, Matrix.one_mulVec]
  simp [Fin.sum_univ_one]

lemma mll_single (c l noise x0 y0 : ℝ) :
    mll 1 [c, l, noise] [[x0]] [y0]
      = -((y0 - c) * ((1 + noise)⁻¹ * (y0 - c))) / 2
        - Real.log (1 + noise) / 2 - Real.log (2 * Real.pi) / 2 := by
  have h1 : mll 1 [c, l, noise] [[x0]] [y0]
      = gaussianLogPdf 1 (fun _ => c) (covMatrix [l] noise [[x0]])
          (fun i => [y0].getD i.1 0) := rfl
  rw [h1, gaussianLogPdf_one]
  have hk : ∀ i j : Fin 1, covMatrix [l] noise [[x0]] i j = 1 + noise := by
    intro i j
    have hij : i = j := Subsingleton.elim i j
    simp [covMatrix, sqExpKernel, hij]
  rw [hk 0 0]
  norm_num

/-! ## RandomGP (`src/random_gp.py`, class `RandomGP`) -/

/-- The hierarchical prior over GP parameters.  `prior_factor` and the
per-group prior distributions (`self._param_dists`, concatenated into
`self.hyper_prior = CatDist(...)`) are set in `__init__`; `input_dim`
is the GP input dimensionality (`size_in`). -/
structure RandomGP where
  prior_factor : ℝ
  input_dim : ℕ
  hyper_prior : List PDist

/-- `RandomGP._log_prob_prior(params)`: the joint hyper-prior log-density
of each parameter sample in the leading batch dimension. -/
noncomputable def RandomGP.log_prob_prior (g : RandomGP) (params : List (List ℝ)) : List ℝ :=
  catLogProbBatched g.hyper_prior params

/-- `RandomGP._log_prob_likelihood(params, x_data, y_data)`: materialize
the forward fn with the batched parameter vector and return the batched
marginal log-likelihood; batch element `b` is the GP parameterized by
`params[b]` evaluated on `(x_data[b], y_data[b])` (the per-batch-element
vectorization is modelled from the spec, the `src.models` GP internals
not being among the given sources). -/
noncomputable def RandomGP.log_prob_likelihood (g : RandomGP) (params : List (List ℝ))
    (x_data : List (List (List ℝ))) (y_data : List (List ℝ)) : List ℝ :=
  List.zipWith (fun p xy => mll g.input_dim p xy.1 xy.2) params (x_data.zip y_data)

/-- `RandomGP.log_prob(params, x_data, y_data)` (source lines 178-179):
`prior_factor * self._log_prob_prior(params) + self._log_prob_likelihood(params, x_data, y_data)`. -/
noncomputable def RandomGP.log_prob (g : RandomGP) (params : List (List ℝ))
    (x_data : List (List (List ℝ))) (y_data : List (List ℝ)) : List ℝ :=
  vecAdd (vecScale g.prior_factor (g.log_prob_prior params))
    (g.log_prob_likelihood params x_data y_data)

lemma vecAdd_map {α : Type} (l : List α) (f g : α → ℝ) :
    vecAdd (l.map f) (l.map g) = l.map (fun a => f a + g a) := by
  induction l with
  | nil => rfl
  | cons a t ih =>
      simp only [vecAdd, List.map_cons, List.zipWith_cons_cons, List.cons.injEq] at ih ⊢
      exact ⟨trivial, ih⟩

lemma vecSub_map {α : Type} (l : List α) (f g : α → ℝ) :
    vecSub (l.map f) (l.map g) = l.map (fun a => f a - g a) := by
  induction l with
  | nil => rfl
  | cons a t ih =>
      simp only [vecSub, List.map_cons, List.zipWith_cons_cons, List.cons.injEq] at ih ⊢
      exact ⟨trivial, ih⟩

lemma vecScale_map {α : Type} (c : ℝ) (l : List α) (f : α → ℝ) :
    vecScale c (l.map f) = l.map (fun a => c * f a) := by
  induction l with
  | nil => rfl
  | cons a t ih =>
      simp only [vecScale, List.map_cons, List.cons.injEq] at ih ⊢
      exact ⟨trivial, ih⟩

lemma replicate_length_eq_map {α β : Type} (l : List α) (b : β) :
    List.replicate l.length b = l.map (fun _ => b) := by
  induction l with
  | nil => rfl
  | cons a t ih =>
      simp only [List.length_cons, List.replicate_succ, List.map_cons, List.cons.injEq]
      exact ⟨trivial, ih⟩

/-- Decomposition of `RandomGP.log_prob`: batch element `i` is
`prior_factor` times the joint prior log-density of sample `i` plus the
marginal log-likelihood of data tuple `i` under the GP parameterized by
the same sample `i`. -/
lemma RandomGP.log_prob_eq (g : RandomGP) (params : List (List ℝ))
    (x : List (List (List ℝ))) (y : List (List ℝ))
    (hx : params.length = x.length) (hy : params.length = y.length) :
    g.log_prob params x y
      = (params.zip (x.zip y)).map
          (fun q => g.prior_factor * catLogProb g.hyper_prior q.1
            + mll g.input_dim q.1 q.2.1 q.2.2) := by
  induction params generalizing x y with
  | nil =>
      simp [RandomGP.log_prob, RandomGP.log_prob_prior, RandomGP.log_prob_likelihood,
        catLogProbBatched, vecAdd, vecScale]
  | cons p ps ih =>
      cases x with
      | nil => exact absurd hx (by simp)
      | cons x0 xs =>
          cases y with
          | nil => exact absurd hy (by simp)
          | cons y0 ys =>
              have hx' : ps.length = xs.length := by simpa using hx
              have hy' : ps.length = ys.length := by simpa using hy
              have ihr := ih xs ys hx' hy'
              simp only [RandomGP.log_prob, RandomGP.log_prob_prior,
                RandomGP.log_prob_likelihood, catLogProbBatched, vecAdd, vecScale,
                List.map_cons, List.zip_cons_cons, List.zipWith_cons_cons,
                List.cons.injEq] at ihr ⊢
              exact ⟨trivial, ihr⟩

/-! ## GPRegressionMetaLearnedVI: the negative ELBO
(`meta_learn/GPR_meta_vi.py`, `_setup_model_inference`, lines 240-295) -/

/-- One meta-training task after `_prepare_data_per_task`:
`(train_x, train_y)` with `train_x : [n, d]`, `train_y : [n]`. -/
def TaskData : Type := List (List ℝ) × List ℝ

/-- The state `get_neg_elbo` closes over: `self.prior_factor`,
`self.svi_batch_size`, the `RandomGPMeta` model (built with the same
`prior_factor`) and the variational posterior (its `forward()` output,
a `CatDist` over the parameter groups). -/
structure GPRegressionMetaLearnedVI where
  prior_factor : ℝ
  svi_batch_size : ℕ
  input_dim : ℕ
  hyper_prior : List PDist
  posterior : List PDist

/-- The `RandomGPMeta` instance built in `_setup_model_inference`
(lines 252-261): it receives `prior_factor=self.prior_factor`. -/
def GPRegressionMetaLearnedVI.random_gp (m : GPRegressionMetaLearnedVI) : RandomGP :=
  ⟨m.prior_factor, m.input_dim, m.hyper_prior⟩

/-- `_tile_data_tuples` (lines 268-279): replicate each task's data
along a new leading batch dimension of size `tile_size`. -/
def tile_data_tuples (tasks_dicts : List TaskData) (tile_size : ℕ) :
    List (List (List (List ℝ)) × List (List ℝ)) :=
  tasks_dicts.map (fun t => (List.replicate tile_size t.1, List.replicate tile_size t.2))

/-- Modelled from the spec: `meta_learn.random_gp.RandomGPMeta.log_prob`
is not among the given source files (only its caller `get_neg_elbo` is).
Per spec sections 4.3 and 4.5, it returns
`prior_factor * prior.log_prob(params)` plus the sum over the sampled
tasks of the per-task batched GP marginal log-likelihood, batched over
the leading sample dimension. -/
noncomputable def RandomGPMeta.log_prob (g : RandomGP) (params : List (List ℝ))
    (data_tuples : List (List (List (List ℝ)) × List (List ℝ))) : List ℝ :=
  vecAdd (vecScale g.prior_factor (catLogProbBatched g.hyper_prior params))
    ((data_tuples.map (fun t => g.log_prob_likelihood params t.1 t.2)).foldr vecAdd
      (List.replicate params.length 0))

/-- `get_neg_elbo(tasks_dicts)` (lines 283-293), with the posterior
sample an explicit argument (the code draws it at line 287 by
reparameterized sampling, `posterior.rsample((svi_batch_size,))`). -/
noncomputable def GPRegressionMetaLearnedVI.get_neg_elbo (m : GPRegressionMetaLearnedVI)
    (param_sample : List (List ℝ)) (tasks_dicts : List TaskData) : ℝ :=
  let data_tuples_tiled := tile_data_tuples tasks_dicts m.svi_batch_size
  let elbo := vecSub (RandomGPMeta.log_prob m.random_gp param_sample data_tuples_tiled)
    (vecScale m.prior_factor (catLogProbBatched m.posterior param_sample));
  -(vecMean elbo)

/-- The log-joint of one parameter sample over a mini-batch of tasks
(spec sections 4.3/4.5): weighted hyper-prior log-density of the sample
plus the sum of the per-task marginal log-likelihoods at that sample. -/
noncomputable def log_joint_tasks (m : GPRegressionMetaLearnedVI) (p : List ℝ)
    (tasks : List TaskData) : ℝ :=
  m.prior_factor * catLogProb m.hyper_prior p
    + (tasks.map (fun t => mll m.input_dim p t.1 t.2)).sum

lemma log_prob_likelihood_tiled (g : RandomGP) (s : List (List ℝ))
    (x : List (List ℝ)) (y : List ℝ) (B : ℕ) (h : s.length ≤ B) :
    g.log_prob_likelihood s (List.replicate B x) (List.replicate B y)
      = s.map (fun p => mll g.input_dim p x y) := by
  induction s generalizing B with
  | nil => simp [RandomGP.log_prob_likelihood]
  | cons p ps ih =>
      cases B with
      | zero => exact absurd h (by simp)
      | succ B' =>
          have h' : ps.length ≤ B' := Nat.succ_le_succ_iff.mp h
          simp only [List.replicate, RandomGP.log_prob_likelihood, List.zip_cons_cons,
            List.zipWith_cons_cons, List.map_cons, List.cons.injEq] at ih ⊢
          exact ⟨trivial, ih B' h'⟩

lemma meta_log_likelihood_eq (g : RandomGP) (s : List (List ℝ))
    (tasks : List TaskData) (B : ℕ) (h : s.length ≤ B) :
    ((tile_data_tuples tasks B).map (fun t => g.log_prob_likelihood s t.1 t.2)).foldr vecAdd
        (List.replicate s.length 0)
      = s.map (fun p => (tasks.map (fun t => mll g.input_dim p t.1 t.2)).sum) := by
  induction tasks with
  | nil =>
      simp only [tile_data_tuples, List.map_nil, List.foldr_nil, List.map_nil]
      rw [replicate_length_eq_map]
      simp
  | cons t ts ih =>
      simp only [tile_data_tuples, List.map_cons, List.foldr_cons] at ih ⊢
      rw [ih, log_prob_likelihood_tiled g s t.1 t.2 B h, vecAdd_map]
      apply List.map_congr_left
      intro p _
      simp

/-- Decomposition of the negative ELBO: minus the mean, over the batch
of posterior samples, of the log-joint over the sampled tasks minus
`prior_factor` times the posterior log-density of the same sample. -/
lemma get_neg_elbo_eq (m : GPRegressionMetaLearnedVI) (s : List (List ℝ))
    (tasks : List TaskData) (h : s.length = m.svi_batch_size) :
    m.get_neg_elbo s tasks
      = -((s.map (fun p => log_joint_tasks m p tasks
            - m.prior_factor * catLogProb m.posterior p)).sum / m.svi_batch_size) := by
  have hg : m.random_gp.prior_factor = m.prior_factor := rfl
  have hhp : m.random_gp.hyper_prior = m.hyper_prior := rfl
  have hid : m.random_gp.input_dim = m.input_dim := rfl
  simp only [GPRegressionMetaLearnedVI.get_neg_elbo, RandomGPMeta.log_prob]
  rw [meta_log_likelihood_eq m.random_gp s tasks m.svi_batch_size (le_of_eq h)]
  simp only [catLogProbBatched, vecScale_map, vecAdd_map, vecSub_map, hg, hhp, hid]
  simp only [vecMean, List.length_map, h, log_joint_tasks]

/-! ## RandomGPPosterior.mode (`src/random_gp.py` lines 240-251) -/

/-- `RandomGPPosterior.mode()`: iterate the per-group distributions in
schema order; a `Normal` group contributes `dist.mean`, a `LogNormal`
group contributes `torch.exp(dist.loc - dist.scale ** 2)`; the results
are concatenated along the last axis (`torch.cat(modes, dim=-1)`). -/
noncomputable def posteriorMode (dists : List PDist) : List ℝ :=
  (dists.map (fun dist => match dist with
    | .normal loc scale => (PDist.normal loc scale).meanv
    | .logNormal loc scale => List.zipWith (fun m s => Real.exp (m - s ^ 2)) loc scale)).flatten

/-- The closed-form group mode as the spec states it: `loc` (the mean)
for a Normal group and `exp (loc - scale^2)` for a LogNormal group. -/
noncomputable def closedFormMode : PDist → List ℝ
  | .normal loc _ => loc
  | .logNormal loc scale => List.zipWith (fun m s => Real.exp (m - s ^ 2)) loc scale

/-! ## Parameter schema construction (`VectorizedGP.__init__`,
`src/random_gp.py` lines 21-51) and prior alignment
(`RandomGP.__init__`, lines 109-148)

Python strings are modelled as lists of characters, so that substring
tests such as `'mean_nn' in name` keep their meaning. -/

abbrev PyStr : Type := List Char

def nnStr : PyStr := ['N', 'N']
def seStr : PyStr := ['S', 'E']
def constantStr : PyStr := ['c', 'o', 'n', 's', 't', 'a', 'n', 't']
def zeroStr : PyStr := ['z', 'e', 'r', 'o']
def constantMeanName : PyStr := ['c', 'o', 'n', 's', 't', 'a', 'n', 't', '_', 'm', 'e', 'a', 'n']
def lengthscaleName : PyStr := ['l', 'e', 'n', 'g', 't', 'h', 's', 'c', 'a', 'l', 'e']
def noiseName : PyStr := ['n', 'o', 'i', 's', 'e']
def meanNNName : PyStr := ['m', 'e', 'a', 'n', '_', 'n', 'n']
def kernelNNName : PyStr := ['k', 'e', 'r', 'n', 'e', 'l', '_', 'n', 'n']
def weightName : PyStr := ['w', 'e', 'i', 'g', 'h', 't']
def biasName : PyStr := ['b', 'i', 'a', 's']

def startsWithChars : PyStr → PyStr → Bool
  | [], _ => true
  | _ :: _, [] => false
  | a :: pat, b :: s => a == b && startsWithChars pat s

/-- Python substring test `pat in s`. -/
def containsChars (pat : PyStr) : PyStr → Bool
  | [] => pat.isEmpty
  | c :: rest => startsWithChars pat (c :: rest) || containsChars pat rest

/-- `VectorizedGP._param` (lines 95-102): register one named tensor,
asserting the name is not already registered. -/
def param_append (acc : List (PyStr × List ℕ)) (p : PyStr × List ℕ) :
    Except String (List (PyStr × List ℕ)) :=
  if p.1 ∈ acc.map Prod.fst then .error "AssertionError: name already registered"
  else .ok (acc ++ [p])

/-- `VectorizedGP._param_module` (lines 88-93): register each of a
sub-module's named parameters in order. -/
def param_append_all (acc : List (PyStr × List ℕ)) :
    List (PyStr × List ℕ) → Except String (List (PyStr × List ℕ))
  | [] => .ok acc
  | p :: ps => do
      let acc' ← param_append acc p
      param_append_all acc' ps

/-- `VectorizedGP.__init__` (lines 23-51), tracked at the level of the
parameter schema it registers.  `mean_nn_params` / `kernel_nn_params`
are the named parameters of the two `NeuralNetworkVectorized`
sub-modules (that class is not among the given sources; per the spec
its parameters are the layers' weight and bias tensors), which
`_param_module` registers with `mean_nn.` / `kernel_nn.` prefixed to
the name.  Unsupported family strings raise `NotImplementedError`
(lines 37-38 and 47-48); `noise` is always registered last (line 50). -/
def VectorizedGP_schema (input_dim feature_dim : ℕ) (covar_module_str mean_module_str : PyStr)
    (mean_nn_params kernel_nn_params : List (PyStr × List ℕ)) :
    Except String (List (PyStr × List ℕ)) := do
  let params0 : List (PyStr × List ℕ) := []
  let params1 ←
    if mean_module_str = nnStr then
      param_append_all params0
        (mean_nn_params.map (fun p => (meanNNName ++ ['.'] ++ p.1, p.2)))
    else if mean_module_str = constantStr then
      param_append params0 (constantMeanName, [1, 1])
    else .error "NotImplementedError"
  let params2 ←
    if covar_module_str = nnStr then do
      let t ← param_append_all params1
        (kernel_nn_params.map (fun p => (kernelNNName ++ ['.'] ++ p.1, p.2)))
      param_append t (lengthscaleName, [1, feature_dim])
    else if covar_module_str = seStr then
      param_append params1 (lengthscaleName, [1, input_dim])
    else .error "NotImplementedError"
  param_append params2 (noiseName, [1, 1])

/-- `RandomGP._param_dist` (lines 162-168): register one named prior
distribution, asserting the name is new. -/
def param_dist_append (acc : List PyStr) (n : PyStr) : Except String (List PyStr) :=
  if n ∈ acc then .error "AssertionError: dist name already registered"
  else .ok (acc ++ [n])

/-- One iteration of the `RandomGP.__init__` loop over the GP parameter
schema (lines 117-142), tracked at the level of which names receive a
prior distribution: `constant_mean`, `lengthscale` and `noise` are
matched by name equality; a name containing `mean_nn` or `kernel_nn`
gets a Normal prior when it contains `weight` or `bias` and otherwise
raises `NotImplementedError`. -/
def param_dist_step (acc : List PyStr) (name : PyStr) : Except String (List PyStr) := do
  let acc1 ← if name = constantMeanName then param_dist_append acc name else pure acc
  let acc2 ← if name = lengthscaleName then param_dist_append acc1 name else pure acc1
  let acc3 ← if name = noiseName then param_dist_append acc2 name else pure acc2
  if containsChars meanNNName name || containsChars kernelNNName name then
    if containsChars weightName name then param_dist_append acc3 name
    else if containsChars biasName name then param_dist_append acc3 name
    else .error "NotImplementedError"
  else pure acc3

/-- The full `RandomGP.__init__` loop (lines 117-142) over the GP
schema names, in order. -/
def param_dist_names : List PyStr → List PyStr → Except String (List PyStr)
  | [], acc => .ok acc
  | n :: ns, acc => do
      let acc' ← param_dist_step acc n
      param_dist_names ns acc'

/-- The alignment assertion of `RandomGP.__init__` (lines 144-147):
zip the GP parameter names with the prior dist names and check
pairwise name equality. -/
def prior_gp_aligned (gp_names dist_names : List PyStr) : Bool :=
  (gp_names.zip dist_names).all (fun p => p.1 == p.2)

/-- The family-string validation run while constructing
`GPRegressionMetaLearnedVI` with string modules: `__init__` lines 64-69
assert the mean family is one of NN, constant, zero and the kernel
family one of NN, SE; `_setup_model_inference` (lines 248-249), called
from `__init__` at line 89, then asserts the mean family is one of
NN, constant and the kernel family one of NN, SE. -/
def metaLearner_family_check (mean_module covar_module : PyStr) : Except String Unit := do
  if mean_module = nnStr ∨ mean_module = constantStr ∨ mean_module = zeroStr then pure ()
  else .error "AssertionError: mean_module"
  if covar_module = nnStr ∨ covar_module = seStr then pure ()
  else .error "AssertionError: covar_module"
  if mean_module = nnStr ∨ mean_module = constantStr then pure ()
  else .error "AssertionError: mean_module_str"
  if covar_module = nnStr ∨ covar_module = seStr then pure ()
  else .error "AssertionError: covar_module_str"

/-! ## state_dict / load_state_dict (`GPR_meta_vi.py` lines 225-238) -/

/-- One entry of `self.task_dicts`.  `__init__` (lines 96-106) stores
only the prepared `train_x` / `train_y` tensors; the `model` field
models the presence of a `"model"` key (`Option`), with `α` the type of
a GP module state dict. -/
structure TaskDict (α : Type) where
  train_x : List (List ℝ)
  train_y : List ℝ
  model : Option α

/-- Construction of `self.task_dicts` in `__init__` (lines 96-106):
for each task only `train_x` and `train_y` are stored; no `"model"`
key is ever added. -/
def init_task_dicts (α : Type) (meta_train_data : List (List (List ℝ) × List ℝ)) :
    List (TaskDict α) :=
  meta_train_data.map (fun t => ⟨t.1, t.2, none⟩)

/-- `state_dict()` (lines 225-233): read
`self.task_dicts[0]["model"].state_dict()` (an IndexError on an empty
task list, a KeyError when the `"model"` key is absent), then assert,
task by task, that every model state equals it parameter for parameter,
and return it together with the optimizer state. -/
def state_dict {α β : Type} [DecidableEq α] (optimizer_state : β)
    (task_dicts : List (TaskDict α)) : Except String (β × α) := do
  let m0 ← match task_dicts with
    | [] => .error "IndexError: list index out of range"
    | td :: _ =>
        match td.model with
        | none => .error "KeyError: model"
        | some m => pure m
  let _ ← task_dicts.mapM (fun td =>
    match td.model with
    | none => (.error "KeyError: model" : Except String Unit)
    | some m => if m = m0 then .ok () else .error "AssertionError: model mismatch")
  return (optimizer_state, m0)

/-- `load_state_dict(state_dict)` (lines 235-238): call
`task_dict["model"].load_state_dict(...)` for every task dict — a
lookup of the `"model"` key — then restore the optimizer state. -/
def load_state_dict {α β : Type} (task_dicts : List (TaskDict α)) (state : β × α) :
    Except String (List (TaskDict α)) :=
  task_dicts.mapM (fun td =>
    match td.model with
    | none => .error "KeyError: model"
    | some _ => .ok { td with model := some state.2 })

/-! ## train_test (`experiments/hyperparam_search/meta_vi_hyperparam.py`
lines 71-100) -/

/-- A value stored in a trial's result record: a configuration value or
metric (number or string) or the `np.nan` sentinel. -/
inductive PyVal where
  | nan
  | num (x : ℝ)
  | str (s : PyStr)

/-- Python dict assignment of one key (`d[k] = v`, as performed by
`dict.update`): overwrite the key if present, append it otherwise. -/
def dictSet (d : List (PyStr × PyVal)) (k : PyStr) (v : PyVal) : List (PyStr × PyVal) :=
  if d.any (fun p => p.1 == k) then d.map (fun p => if p.1 == k then (k, v) else p)
  else d ++ [(k, v)]

/-- Python dict lookup. -/
def dictGet (d : List (PyStr × PyVal)) (k : PyStr) : Option PyVal :=
  (d.find? (fun p => p.1 == k)).map Prod.snd

def llKey : PyStr := ['l', 'l']
def rmseKey : PyStr := ['r', 'm', 's', 'e']
def calibKey : PyStr := ['c', 'a', 'l', 'i', 'b', '_', 'e', 'r', 'r']

/-- `train_test(config)` (lines 71-100): `results_dict = config`; run
the trial body (data loading, model fitting, evaluation — represented
by its outcome, the three metrics or an exception); on success update
the record with `ll`, `rmse`, `calib_err`, and on any exception update
the record with `np.nan` for all three instead of propagating; the
record is returned either way. -/
def train_test (config : List (PyStr × PyVal)) (body : Except String (ℝ × ℝ × ℝ)) :
    List (PyStr × PyVal) :=
  match body with
  | .ok r =>
      dictSet (dictSet (dictSet config llKey (.num r.1)) rmseKey (.num r.2.1)) calibKey
        (.num r.2.2)
  | .error _ => dictSet (dictSet (dictSet config llKey .nan) rmseKey .nan) calibKey .nan

/-! ## Task batch size (`GPR_meta_vi.py` lines 79-82) -/

/-- `__init__` lines 79-82: `if task_batch_size < 1:
self.task_batch_size = len(meta_train_data) else:
self.task_batch_size = min(task_batch_size, len(meta_train_data))`. -/
def effective_task_batch_size (task_batch_size : ℤ) (n_tasks : ℕ) : ℤ :=
  if task_batch_size < 1 then n_tasks else min task_batch_size (n_tasks : ℤ)

/-! ## Supporting lemmas for the dict operations -/

lemma find?_overwrite (d : List (PyStr × PyVal)) (k : PyStr) (v : PyVal)
    (h : d.any (fun p => p.1 == k) = true) :
    (d.map (fun p => if p.1 == k then (k, v) else p)).find? (fun p => p.1 == k)
      = some (k, v) := by
  induction d with
  | nil => simp at h
  | cons p rest ih =>
      by_cases hpk : (p.1 == k) = true
      · rw [List.map_cons, if_pos hpk]
        exact List.find?_cons_of_pos _ (by simp)
      · have h' : rest.any (fun p => p.1 == k) = true := by
          rw [List.any_cons, Bool.or_eq_true] at h
          exact h.resolve_left hpk
        rw [List.map_cons, if_neg hpk,
          @List.find?_cons_of_neg _ (fun q => q.1 == k) p _ hpk]
        exact ih h'

lemma find?_append_new (d : List (PyStr × PyVal)) (k : PyStr) (v : PyVal)
    (h : d.any (fun p => p.1 == k) = false) :
    (d ++ [(k, v)]).find? (fun p => p.1 == k) = some (k, v) := by
  have hnone : d.find? (fun p => p.1 == k) = none := by
    rw [List.find?_eq_none]
    intro x hx hpx
    have hany : d.any (fun p => p.1 == k) = true := List.any_eq_true.mpr ⟨x, hx, hpx⟩
    rw [h] at hany
    exact Bool.false_ne_true hany
  rw [List.find?_append, hnone]
  simp

lemma dictGet_dictSet_same (d : List (PyStr × PyVal)) (k : PyStr) (v : PyVal) :
    dictGet (dictSet d k v) k = some v := by
  unfold dictGet dictSet
  by_cases h : d.any (fun p => p.1 == k) = true
  · rw [if_pos h, find?_overwrite d k v h]
    rfl
  · have h' : d.any (fun p => p.1 == k) = false := by
      revert h; cases d.any (fun p => p.1 == k) <;> simp
    rw [if_neg h, find?_append_new d k v h']
    rfl

lemma find?_overwrite_other (d : List (PyStr × PyVal)) (k kq : PyStr) (v : PyVal)
    (hne : (kq == k) = false) :
    (d.map (fun p => if p.1 == k then (k, v) else p)).find? (fun p => p.1 == kq)
      = d.find? (fun p => p.1 == kq) := by
  have hne' : kq ≠ k := beq_eq_false_iff_ne.mp hne
  induction d with
  | nil => rfl
  | cons p rest ih =>
      by_cases hpk : (p.1 == k) = true
      · have hp1 : p.1 = k := eq_of_beq hpk
        have hh1 : ¬((k, v).1 == kq) = true := by
          intro hc
          exact hne' (eq_of_beq hc).symm
        have hh2 : ¬(p.1 == kq) = true := by
          intro hc
          apply hne'
          rw [← hp1]
          exact (eq_of_beq hc).symm
        rw [List.map_cons, if_pos hpk,
          @List.find?_cons_of_neg _ (fun q => q.1 == kq) (k, v) _ hh1,
          @List.find?_cons_of_neg _ (fun q => q.1 == kq) p _ hh2, ih]
      · rw [List.map_cons, if_neg hpk]
        by_cases hpq : (p.1 == kq) = true
        · rw [@List.find?_cons_of_pos _ (fun q => q.1 == kq) p _ hpq,
            @List.find?_cons_of_pos _ (fun q => q.1 == kq) p _ hpq]
        · rw [@List.find?_cons_of_neg _ (fun q => q.1 == kq) p _ hpq,
            @List.find?_cons_of_neg _ (fun q => q.1 == kq) p _ hpq, ih]

lemma find?_append_other (d : List (PyStr × PyVal)) (k kq : PyStr) (v : PyVal)
    (hne : (kq == k) = false) :
    (d ++ [(k, v)]).find? (fun p => p.1 == kq) = d.find? (fun p => p.1 == kq) := by
  rw [List.find?_append]
  have hsing : ([(k, v)].find? (fun p => p.1 == kq)) = none := by
    rw [List.find?_eq_none]
    intro x hx hpx
    have hx' : x = (k, v) := by simpa using hx
    rw [hx'] at hpx
    exact (beq_eq_false_iff_ne.mp hne) (eq_of_beq hpx).symm
  rw [hsing]
  cases d.find? (fun p => p.1 == kq) <;> rfl

lemma dictGet_dictSet_other (d : List (PyStr × PyVal)) (k kq : PyStr) (v : PyVal)
    (hne : (kq == k) = false) :
    dictGet (dictSet d k v) kq = dictGet d kq := by
  unfold dictGet dictSet
  by_cases h : d.any (fun p => p.1 == k) = true
  · rw [if_pos h, find?_overwrite_other d k kq v hne]
  · rw [if_neg h, find?_append_other d k kq v hne]

/-! ## Claim theorems -/

/-- C4: `RandomGPPosterior.mode()` returns the concatenation, in schema
order, of each parameter group's closed-form mode: `loc` (the mean) for
a Normal group and `exp (loc - scale^2)` for a LogNormal group, for
arbitrary learned location and scale values. -/
theorem posteriorMode_eq_closedForm (dists : List PDist) :
    posteriorMode dists = (dists.map closedFormMode).flatten := by
  unfold posteriorMode
  congr 1

/-- C5: the claim says `state_dict()` succeeds exactly when all
per-task GP model states agree (checked at checkpoint time), returning
the optimizer state plus one representative model state, and that
`load_state_dict` repopulates every task's model.  On the code as
written both operations always fail: `__init__` (lines 96-106) stores
only `train_x` and `train_y` in each task dict, so the
`task_dict["model"]` lookups in lines 228, 231 and 237 raise for every
constructed instance. -/
theorem state_dict_always_fails {α β : Type} [DecidableEq α] (optimizer_state : β)
    (meta_train_data : List (List (List ℝ) × List ℝ)) (state : β × α) :
    (state_dict optimizer_state (init_task_dicts α meta_train_data)).isOk = false
      ∧ ∀ t ts, load_state_dict (init_task_dicts α (t :: ts)) state
          = Except.error "KeyError: model" := by
  constructor
  · cases meta_train_data with
    | nil => rfl
    | cons t ts => rfl
  · intro t ts
    rfl

/-- C9: when the trial body raises, the result record of `train_test`
still contains the trial configuration (every non-metric key looks up
unchanged) but reports the NaN sentinel for all three metrics
(log-likelihood, rmse, calibration error) instead of propagating the
exception. -/
theorem train_test_exception_nan (config : List (PyStr × PyVal)) (e : String)
    (body : Except String (ℝ × ℝ × ℝ)) (hbody : body = .error e) :
    dictGet (train_test config body) llKey = some PyVal.nan
      ∧ dictGet (train_test config body) rmseKey = some PyVal.nan
      ∧ dictGet (train_test config body) calibKey = some PyVal.nan
      ∧ ∀ k, (k == llKey) = false → (k == rmseKey) = false → (k == calibKey) = false →
          dictGet (train_test config body) k = dictGet config k := by
  subst hbody
  unfold train_test
  refine ⟨?_, ?_, ?_, ?_⟩
  · rw [dictGet_dictSet_other _ _ _ _ (by decide), dictGet_dictSet_other _ _ _ _ (by decide),
      dictGet_dictSet_same]
  · rw [dictGet_dictSet_other _ _ _ _ (by decide), dictGet_dictSet_same]
  · rw [dictGet_dictSet_same]
  · intro k h1 h2 h3
    rw [dictGet_dictSet_other _ _ _ _ h3, dictGet_dictSet_other _ _ _ _ h2,
      dictGet_dictSet_other _ _ _ _ h1]

/-- Witness for C9 at a concrete configuration and exception. -/
theorem train_test_exception_nan_witness :
    dictGet (train_test [(['l', 'r'], PyVal.num 1)] (Except.error "numerical divergence")) llKey
        = some PyVal.nan
      ∧ dictGet (train_test [(['l', 'r'], PyVal.num 1)] (Except.error "numerical divergence"))
          (['l', 'r'])
        = dictGet [(['l', 'r'], PyVal.num 1)] (['l', 'r']) :=
  ⟨(train_test_exception_nan [(['l', 'r'], PyVal.num 1)] "numerical divergence" _ rfl).1,
   (train_test_exception_nan [(['l', 'r'], PyVal.num 1)] "numerical divergence" _ rfl).2.2.2
     ['l', 'r'] (by decide) (by decide) (by decide)⟩

/-- C10: the effective task batch size never exceeds the number of
meta-training tasks: a supplied value below 1 becomes the full task
count, any other value is clamped to the minimum of itself and the task
count. -/
theorem effective_task_batch_size_spec (task_batch_size : ℤ) (n_tasks : ℕ) :
    effective_task_batch_size task_batch_size n_tasks ≤ n_tasks
      ∧ (task_batch_size < 1 →
          effective_task_batch_size task_batch_size n_tasks = n_tasks)
      ∧ (1 ≤ task_batch_size →
          effective_task_batch_size task_batch_size n_tasks
            = min task_batch_size (n_tasks : ℤ)) := by
  unfold effective_task_batch_size
  by_cases h : task_batch_size < 1
  · exact ⟨by simp [h], fun _ => by simp [h], fun hc => absurd h (not_lt.mpr hc)⟩
  · exact ⟨by simp [h, min_le_right], fun hc => absurd hc h, fun _ => by simp [h]⟩

/-- Witness for C10: a negative requested size becomes the full task
count; a large one is clamped to the task count. -/
theorem effective_task_batch_size_spec_witness :
    effective_task_batch_size (-1) 3 = 3 ∧ effective_task_batch_size 5 3 = min 5 3 :=
  ⟨(effective_task_batch_size_spec (-1) 3).2.1 (by decide),
   (effective_task_batch_size_spec 5 3).2.2 (by decide)⟩

/-! ## Supporting lemmas for the schema and prior alignment claims -/

lemma except_bind_ok {ε α β : Type} (v : α) (f : α → Except ε β) :
    (Except.ok v >>= f) = f v := rfl

lemma except_pure_bind {ε α β : Type} (v : α) (f : α → Except ε β) :
    ((pure v : Except ε α) >>= f) = f v := rfl

lemma except_bind_error {ε α β : Type} (e : ε) (f : α → Except ε β) :
    ((Except.error e : Except ε α) >>= f) = Except.error e := rfl

lemma except_bind_isOk_false {ε α β : Type} (e : Except ε α) (f : α → Except ε β)
    (h : ∀ v, (f v).isOk = false) : (e >>= f).isOk = false := by
  cases e with
  | error err => rfl
  | ok v => exact h v

lemma startsWithChars_append_self (p t : PyStr) : startsWithChars p (p ++ t) = true := by
  induction p with
  | nil => rfl
  | cons c rest ih => simp [startsWithChars, ih]

lemma containsChars_of_startsWith (p s : PyStr) (h : startsWithChars p s = true) :
    containsChars p s = true := by
  cases s with
  | nil =>
      cases p with
      | nil => rfl
      | cons c r => simp [startsWithChars] at h
  | cons c rest => simp [containsChars, h]

lemma containsChars_append_left (p pre s : PyStr) (h : containsChars p s = true) :
    containsChars p (pre ++ s) = true := by
  induction pre with
  | nil => simpa using h
  | cons c rest ih => simp [containsChars, ih]

lemma cons_ne_cons_of_head {a b : Char} (s t : PyStr) (hab : a ≠ b) :
    (a :: s) ≠ (b :: t) := by
  intro h
  injection h with h1 _
  exact hab h1

/-- One schema name adds exactly itself to the prior-dist registry. -/
def StepAdds (n : PyStr) : Prop :=
  ∀ acc : List PyStr, ¬ n ∈ acc → param_dist_step acc n = .ok (acc ++ [n])

lemma stepAdds_constantMean : StepAdds constantMeanName := by
  intro acc hmem
  simp only [constantMeanName] at hmem
  simp [param_dist_step, param_dist_append, containsChars, startsWithChars, hmem,
    constantMeanName, lengthscaleName, noiseName, meanNNName, kernelNNName]

lemma stepAdds_lengthscale : StepAdds lengthscaleName := by
  intro acc hmem
  simp only [lengthscaleName] at hmem
  simp [param_dist_step, param_dist_append, containsChars, startsWithChars, hmem,
    constantMeanName, lengthscaleName, noiseName, meanNNName, kernelNNName]

lemma stepAdds_noise : StepAdds noiseName := by
  intro acc hmem
  simp only [noiseName] at hmem
  simp [param_dist_step, param_dist_append, containsChars, startsWithChars, hmem,
    constantMeanName, lengthscaleName, noiseName, meanNNName, kernelNNName]

lemma stepAdds_nn (n : PyStr)
    (hnn : containsChars meanNNName n = true ∨ containsChars kernelNNName n = true)
    (hwb : containsChars weightName n = true ∨ containsChars biasName n = true)
    (h1 : n ≠ constantMeanName) (h2 : n ≠ lengthscaleName) (h3 : n ≠ noiseName) :
    StepAdds n := by
  intro acc hmem
  have hcond : (containsChars meanNNName n || containsChars kernelNNName n) = true := by
    rcases hnn with h | h <;> simp [h]
  rcases hwb with h | h
  · simp [param_dist_step, param_dist_append, h1, h2, h3, hcond, h, hmem]
  · by_cases hw : containsChars weightName n = true
    · simp [param_dist_step, param_dist_append, h1, h2, h3, hcond, hw, hmem]
    · simp [param_dist_step, param_dist_append, h1, h2, h3, hcond, hw, h, hmem]

lemma param_dist_names_adds (l : List PyStr) :
    ∀ acc : List PyStr, (∀ n ∈ l, StepAdds n) → (acc ++ l).Nodup →
      param_dist_names l acc = .ok (acc ++ l) := by
  induction l with
  | nil => intro acc _ _; simp [param_dist_names]
  | cons n ns ih =>
      intro acc hsteps hnd
      have hdisj := (List.nodup_append.mp hnd).2.2
      have hmem : ¬ n ∈ acc := fun hc => hdisj hc (List.mem_cons_self n ns)
      unfold param_dist_names
      rw [hsteps n (List.mem_cons_self n ns) acc hmem, except_bind_ok]
      have hnd' : ((acc ++ [n]) ++ ns).Nodup := by
        simpa [List.append_assoc] using hnd
      rw [ih (acc ++ [n]) (fun q hq => hsteps q (List.mem_cons_of_mem n hq)) hnd']
      simp [List.append_assoc]

lemma prior_gp_aligned_self (l : List PyStr) : prior_gp_aligned l l = true := by
  unfold prior_gp_aligned
  induction l with
  | nil => rfl
  | cons n ns ih => simp only [List.zip_cons_cons, List.all_cons, ih, beq_self_eq_true,
      Bool.true_and]

/-- The parameter schema `VectorizedGP.__init__` registers when it does
not raise, branch by branch, as a plain list (used to state the
no-duplicate-names side condition). -/
def gp_schema_raw (input_dim feature_dim : ℕ) (covar_module_str mean_module_str : PyStr)
    (mean_nn_params kernel_nn_params : List (PyStr × List ℕ)) : List (PyStr × List ℕ) :=
  (if mean_module_str = nnStr then
      mean_nn_params.map (fun p => (meanNNName ++ ['.'] ++ p.1, p.2))
    else if mean_module_str = constantStr then [(constantMeanName, [1, 1])]
    else [])
  ++ ((if covar_module_str = nnStr then
        kernel_nn_params.map (fun p => (kernelNNName ++ ['.'] ++ p.1, p.2))
          ++ [(lengthscaleName, [1, feature_dim])]
      else if covar_module_str = seStr then [(lengthscaleName, [1, input_dim])]
      else [])
    ++ [(noiseName, [1, 1])])

lemma param_append_ok (acc : List (PyStr × List ℕ)) (p : PyStr × List ℕ)
    (h : ¬ p.1 ∈ acc.map Prod.fst) : param_append acc p = .ok (acc ++ [p]) := by
  unfold param_append
  rw [if_neg h]

lemma param_append_all_ok (ps : List (PyStr × List ℕ)) :
    ∀ acc, ((acc ++ ps).map Prod.fst).Nodup → param_append_all acc ps = .ok (acc ++ ps) := by
  induction ps with
  | nil => intro acc _; simp [param_append_all]
  | cons p ps ih =>
      intro acc hnd
      rw [List.map_append] at hnd
      have hdisj := (List.nodup_append.mp hnd).2.2
      have hmem : ¬ p.1 ∈ acc.map Prod.fst := fun hc =>
        hdisj hc (by simp)
      unfold param_append_all
      rw [param_append_ok acc p hmem, except_bind_ok]
      have hnd' : (((acc ++ [p]) ++ ps).map Prod.fst).Nodup := by
        rw [← List.map_append] at hnd
        simpa [List.append_assoc] using hnd
      rw [ih (acc ++ [p]) hnd']
      simp [List.append_assoc]

lemma not_mem_map_prefixed (c0 : Char) (pre : PyStr) (ps : List (PyStr × List ℕ)) (a : PyStr)
    (h : ∀ t : PyStr, (c0 :: t) ≠ a) :
    a ∉ (ps.map (fun p => ((c0 :: pre) ++ ['.'] ++ p.1, p.2))).map Prod.fst := by
  intro hc
  rcases List.mem_map.mp hc with ⟨q, hq, hqe⟩
  rcases List.mem_map.mp hq with ⟨p, hp, hpe⟩
  rw [← hpe] at hqe
  exact h _ hqe

lemma metaLearner_family_check_ok_iff (mean covar : PyStr) :
    (metaLearner_family_check mean covar).isOk = true
      ↔ ((mean = nnStr ∨ mean = constantStr) ∧ (covar = nnStr ∨ covar = seStr)) := by
  by_cases h1 : mean = nnStr ∨ mean = constantStr ∨ mean = zeroStr
  · by_cases h2 : covar = nnStr ∨ covar = seStr
    · by_cases h3 : mean = nnStr ∨ mean = constantStr
      · simp [metaLearner_family_check, h1, h2, h3, except_bind_error, except_pure_bind,
          except_bind_ok, Except.isOk, Except.toBool, pure, Except.pure]
      · simp [metaLearner_family_check, h1, h2, h3, except_bind_error, except_pure_bind,
          except_bind_ok, Except.isOk, Except.toBool, pure, Except.pure]
    · simp [metaLearner_family_check, h1, h2, except_bind_error, except_pure_bind,
        except_bind_ok, Except.isOk, Except.toBool, pure, Except.pure]
  · have h3 : ¬(mean = nnStr ∨ mean = constantStr) := fun hc => h1 (hc.imp id Or.inl)
    simp [metaLearner_family_check, h1, h3, except_bind_error, except_pure_bind,
      except_bind_ok, Except.isOk, Except.toBool, pure, Except.pure]

lemma VectorizedGP_schema_error (d f : ℕ) (covar mean : PyStr)
    (mnn knn : List (PyStr × List ℕ))
    (h : ¬((mean = nnStr ∨ mean = constantStr) ∧ (covar = nnStr ∨ covar = seStr))) :
    (VectorizedGP_schema d f covar mean mnn knn).isOk = false := by
  by_cases hm : mean = nnStr ∨ mean = constantStr
  · have hcov : ¬(covar = nnStr ∨ covar = seStr) := fun hb => h ⟨hm, hb⟩
    have hc1 : ¬(covar = nnStr) := fun hb => hcov (Or.inl hb)
    have hc2 : ¬(covar = seStr) := fun hb => hcov (Or.inr hb)
    rcases hm with rfl | rfl
    · simp only [VectorizedGP_schema, if_true]
      apply except_bind_isOk_false
      intro params1
      rw [if_neg hc1, if_neg hc2]
      rfl
    · simp only [VectorizedGP_schema, if_true]
      apply except_bind_isOk_false
      intro params1
      rw [if_neg hc1, if_neg hc2]
      rfl
  · have hm1 : ¬(mean = nnStr) := fun hb => hm (Or.inl hb)
    have hm2 : ¬(mean = constantStr) := fun hb => hm (Or.inr hb)
    simp only [VectorizedGP_schema]
    rw [if_neg hm1, if_neg hm2]
    rfl

lemma VectorizedGP_schema_ok (d f : ℕ) (covar mean : PyStr)
    (mnn knn : List (PyStr × List ℕ))
    (hmean : mean = nnStr ∨ mean = constantStr)
    (hcovar : covar = nnStr ∨ covar = seStr)
    (hnd : ((gp_schema_raw d f covar mean mnn knn).map Prod.fst).Nodup) :
    VectorizedGP_schema d f covar mean mnn knn
      = .ok (gp_schema_raw d f covar mean mnn knn) := by
  rcases hmean with rfl | rfl <;> rcases hcovar with rfl | rfl
  · -- mean NN, covar NN
    simp only [gp_schema_raw, VectorizedGP_schema, eq_self_iff_true, if_true] at hnd ⊢
    have hndM : ((([] : List (PyStr × List ℕ))
        ++ mnn.map (fun p => (meanNNName ++ ['.'] ++ p.1, p.2))).map Prod.fst).Nodup := by
      simp only [List.nil_append]
      exact List.Nodup.sublist ((List.sublist_append_left _ _).map Prod.fst) hnd
    have e1 := param_append_all_ok (mnn.map (fun p => (meanNNName ++ ['.'] ++ p.1, p.2))) [] hndM
    have hsubK : List.Sublist (knn.map (fun p => (kernelNNName ++ ['.'] ++ p.1, p.2)))
        ((knn.map (fun p => (kernelNNName ++ ['.'] ++ p.1, p.2))
          ++ [(lengthscaleName, [1, f])]) ++ [(noiseName, [1, 1])]) := by
      have h0 := List.sublist_append_left
        (knn.map (fun p => (kernelNNName ++ ['.'] ++ p.1, p.2)))
        ([(lengthscaleName, [1, f])] ++ [(noiseName, [1, 1])])
      simp only [List.append_assoc]
      exact h0
    have hndMK : ((mnn.map (fun p => (meanNNName ++ ['.'] ++ p.1, p.2))
        ++ knn.map (fun p => (kernelNNName ++ ['.'] ++ p.1, p.2))).map Prod.fst).Nodup :=
      List.Nodup.sublist
        (((List.append_sublist_append_left _).mpr hsubK).map Prod.fst) hnd
    have e2 := param_append_all_ok (knn.map (fun p => (kernelNNName ++ ['.'] ++ p.1, p.2)))
      (mnn.map (fun p => (meanNNName ++ ['.'] ++ p.1, p.2))) hndMK
    have hls : ¬ (lengthscaleName, ([1, f] : List ℕ)).1
        ∈ ((mnn.map (fun p => (meanNNName ++ ['.'] ++ p.1, p.2))
            ++ knn.map (fun p => (kernelNNName ++ ['.'] ++ p.1, p.2))).map Prod.fst) := by
      rw [List.map_append]
      intro hc
      rcases List.mem_append.mp hc with hc | hc
      · exact not_mem_map_prefixed 'm' ['e', 'a', 'n', '_', 'n', 'n'] mnn lengthscaleName
          (fun t => cons_ne_cons_of_head _ _ (by decide)) hc
      · exact not_mem_map_prefixed 'k' ['e', 'r', 'n', 'e', 'l', '_', 'n', 'n'] knn lengthscaleName
          (fun t => cons_ne_cons_of_head _ _ (by decide)) hc
    have e3 := param_append_ok _ _ hls
    have hnoise : ¬ (noiseName, ([1, 1] : List ℕ)).1
        ∈ (((mnn.map (fun p => (meanNNName ++ ['.'] ++ p.1, p.2))
              ++ knn.map (fun p => (kernelNNName ++ ['.'] ++ p.1, p.2)))
            ++ [(lengthscaleName, [1, f])]).map Prod.fst) := by
      simp only [List.map_append, List.mem_append]
      intro hc
      rcases hc with (hc | hc) | hc
      · exact not_mem_map_prefixed 'm' ['e', 'a', 'n', '_', 'n', 'n'] mnn noiseName
          (fun t => cons_ne_cons_of_head _ _ (by decide)) hc
      · exact not_mem_map_prefixed 'k' ['e', 'r', 'n', 'e', 'l', '_', 'n', 'n'] knn noiseName
          (fun t => cons_ne_cons_of_head _ _ (by decide)) hc
      · simp only [List.map_cons, List.map_nil, List.mem_singleton] at hc
        exact (by decide : ¬ noiseName = lengthscaleName) hc
    have e4 := param_append_ok _ _ hnoise
    simp only [e1, List.nil_append, e2, e3, e4, except_bind_ok]
    simp [List.append_assoc]
  · -- mean NN, covar SE
    have hse : (seStr = nnStr) ↔ False := iff_false_intro (by decide)
    simp only [gp_schema_raw, VectorizedGP_schema, eq_self_iff_true, if_true, hse, if_false]
      at hnd ⊢
    have hndM : ((([] : List (PyStr × List ℕ))
        ++ mnn.map (fun p => (meanNNName ++ ['.'] ++ p.1, p.2))).map Prod.fst).Nodup := by
      simp only [List.nil_append]
      exact List.Nodup.sublist ((List.sublist_append_left _ _).map Prod.fst) hnd
    have e1 := param_append_all_ok (mnn.map (fun p => (meanNNName ++ ['.'] ++ p.1, p.2))) [] hndM
    have hls : ¬ (lengthscaleName, ([1, d] : List ℕ)).1
        ∈ ((mnn.map (fun p => (meanNNName ++ ['.'] ++ p.1, p.2))).map Prod.fst) := by
      intro hc
      exact not_mem_map_prefixed 'm' ['e', 'a', 'n', '_', 'n', 'n'] mnn lengthscaleName
        (fun t => cons_ne_cons_of_head _ _ (by decide)) hc
    have e2 := param_append_ok _ _ hls
    have hnoise : ¬ (noiseName, ([1, 1] : List ℕ)).1
        ∈ ((mnn.map (fun p => (meanNNName ++ ['.'] ++ p.1, p.2))
            ++ [(lengthscaleName, [1, d])]).map Prod.fst) := by
      simp only [List.map_append, List.mem_append]
      intro hc
      rcases hc with hc | hc
      · exact not_mem_map_prefixed 'm' ['e', 'a', 'n', '_', 'n', 'n'] mnn noiseName
          (fun t => cons_ne_cons_of_head _ _ (by decide)) hc
      · simp only [List.map_cons, List.map_nil, List.mem_singleton] at hc
        exact (by decide : ¬ noiseName = lengthscaleName) hc
    have e3 := param_append_ok _ _ hnoise
    simp only [e1, List.nil_append, e2, e3, except_bind_ok]
    simp [List.append_assoc]
  · -- mean constant, covar NN
    have hcn : (constantStr = nnStr) ↔ False := iff_false_intro (by decide)
    simp only [gp_schema_raw, VectorizedGP_schema, eq_self_iff_true, if_true, hcn, if_false]
      at hnd ⊢
    have e1 : param_append [] (constantMeanName, ([1, 1] : List ℕ))
        = .ok [(constantMeanName, [1, 1])] := by
      simp [param_append]
    have hsubK : List.Sublist (knn.map (fun p => (kernelNNName ++ ['.'] ++ p.1, p.2)))
        ((knn.map (fun p => (kernelNNName ++ ['.'] ++ p.1, p.2))
          ++ [(lengthscaleName, [1, f])]) ++ [(noiseName, [1, 1])]) := by
      have h0 := List.sublist_append_left
        (knn.map (fun p => (kernelNNName ++ ['.'] ++ p.1, p.2)))
        ([(lengthscaleName, [1, f])] ++ [(noiseName, [1, 1])])
      simp only [List.append_assoc]
      exact h0
    have hndCK : (([(constantMeanName, ([1, 1] : List ℕ))]
        ++ knn.map (fun p => (kernelNNName ++ ['.'] ++ p.1, p.2))).map Prod.fst).Nodup :=
      List.Nodup.sublist
        (((List.append_sublist_append_left _).mpr hsubK).map Prod.fst) hnd
    have e2 := param_append_all_ok (knn.map (fun p => (kernelNNName ++ ['.'] ++ p.1, p.2)))
      [(constantMeanName, [1, 1])] hndCK
    have hls : ¬ (lengthscaleName, ([1, f] : List ℕ)).1
        ∈ (([(constantMeanName, ([1, 1] : List ℕ))]
            ++ knn.map (fun p => (kernelNNName ++ ['.'] ++ p.1, p.2))).map Prod.fst) := by
      simp only [List.map_append, List.mem_append]
      intro hc
      rcases hc with hc | hc
      · simp only [List.map_cons, List.map_nil, List.mem_singleton] at hc
        exact (by decide : ¬ lengthscaleName = constantMeanName) hc
      · exact not_mem_map_prefixed 'k' ['e', 'r', 'n', 'e', 'l', '_', 'n', 'n'] knn lengthscaleName
          (fun t => cons_ne_cons_of_head _ _ (by decide)) hc
    have e3 := param_append_ok _ _ hls
    have hnoise : ¬ (noiseName, ([1, 1] : List ℕ)).1
        ∈ ((([(constantMeanName, ([1, 1] : List ℕ))]
              ++ knn.map (fun p => (kernelNNName ++ ['.'] ++ p.1, p.2)))
            ++ [(lengthscaleName, [1, f])]).map Prod.fst) := by
      simp only [List.map_append, List.mem_append]
      intro hc
      rcases hc with (hc | hc) | hc
      · simp only [List.map_cons, List.map_nil, List.mem_singleton] at hc
        exact (by decide : ¬ noiseName = constantMeanName) hc
      · exact not_mem_map_prefixed 'k' ['e', 'r', 'n', 'e', 'l', '_', 'n', 'n'] knn noiseName
          (fun t => cons_ne_cons_of_head _ _ (by decide)) hc
      · simp only [List.map_cons, List.map_nil, List.mem_singleton] at hc
        exact (by decide : ¬ noiseName = lengthscaleName) hc
    have e4 := param_append_ok _ _ hnoise
    simp only [e1, e2, e3, e4, except_bind_ok]
    simp [List.append_assoc]
  · -- mean constant, covar SE
    have hcn : (constantStr = nnStr) ↔ False := iff_false_intro (by decide)
    have hse : (seStr = nnStr) ↔ False := iff_false_intro (by decide)
    simp only [gp_schema_raw, VectorizedGP_schema, eq_self_iff_true, if_true, hcn, hse,
      if_false] at hnd ⊢
    have e1 : param_append [] (constantMeanName, ([1, 1] : List ℕ))
        = .ok [(constantMeanName, [1, 1])] := by
      simp [param_append]
    have hls : ¬ (lengthscaleName, ([1, d] : List ℕ)).1
        ∈ (([(constantMeanName, ([1, 1] : List ℕ))]).map Prod.fst) := by
      simp only [List.map_cons, List.map_nil, List.mem_singleton]
      exact (by decide : ¬ lengthscaleName = constantMeanName)
    have e2 := param_append_ok _ _ hls
    have hnoise : ¬ (noiseName, ([1, 1] : List ℕ)).1
        ∈ (([(constantMeanName, ([1, 1] : List ℕ))]
            ++ [(lengthscaleName, [1, d])]).map Prod.fst) := by
      simp only [List.map_append, List.map_cons, List.map_nil, List.mem_append,
        List.mem_singleton]
      intro hc
      rcases hc with hc | hc
      · exact (by decide : ¬ noiseName = constantMeanName) hc
      · exact (by decide : ¬ noiseName = lengthscaleName) hc
    have e3 := param_append_ok _ _ hnoise
    simp only [e1, e2, e3, except_bind_ok]
    simp [List.append_assoc]

lemma stepAdds_of_meanNN (p1 : PyStr)
    (hwb : containsChars weightName p1 = true ∨ containsChars biasName p1 = true) :
    StepAdds (meanNNName ++ ['.'] ++ p1) :=
  stepAdds_nn _
    (Or.inl (containsChars_of_startsWith _ _
      (startsWithChars_append_self meanNNName (['.'] ++ p1))))
    (hwb.imp (containsChars_append_left _ (meanNNName ++ ['.']) p1)
      (containsChars_append_left _ (meanNNName ++ ['.']) p1))
    (cons_ne_cons_of_head _ _ (by decide))
    (cons_ne_cons_of_head _ _ (by decide))
    (cons_ne_cons_of_head _ _ (by decide))

lemma stepAdds_of_kernelNN (p1 : PyStr)
    (hwb : containsChars weightName p1 = true ∨ containsChars biasName p1 = true) :
    StepAdds (kernelNNName ++ ['.'] ++ p1) :=
  stepAdds_nn _
    (Or.inr (containsChars_of_startsWith _ _
      (startsWithChars_append_self kernelNNName (['.'] ++ p1))))
    (hwb.imp (containsChars_append_left _ (kernelNNName ++ ['.']) p1)
      (containsChars_append_left _ (kernelNNName ++ ['.']) p1))
    (cons_ne_cons_of_head _ _ (by decide))
    (cons_ne_cons_of_head _ _ (by decide))
    (cons_ne_cons_of_head _ _ (by decide))

lemma stepAdds_all (d f : ℕ) (covar mean : PyStr)
    (mnn knn : List (PyStr × List ℕ))
    (hwb : ∀ p ∈ mnn ++ knn, containsChars weightName p.1 = true
        ∨ containsChars biasName p.1 = true) :
    ∀ n ∈ (gp_schema_raw d f covar mean mnn knn).map Prod.fst, StepAdds n := by
  intro n hn
  simp only [gp_schema_raw, List.map_append, List.mem_append] at hn
  rcases hn with hn | hn | hn
  · split at hn
    · simp only [List.map_map, List.mem_map] at hn
      rcases hn with ⟨p, hp, rfl⟩
      exact stepAdds_of_meanNN p.1 (hwb p (List.mem_append_left knn hp))
    · split at hn
      · simp only [List.map_cons, List.map_nil, List.mem_singleton] at hn
        subst hn
        exact stepAdds_constantMean
      · simp at hn
  · split at hn
    · simp only [List.map_append, List.mem_append, List.map_map, List.mem_map,
        List.map_cons, List.map_nil, List.mem_singleton] at hn
      rcases hn with ⟨p, hp, rfl⟩ | hn
      · exact stepAdds_of_kernelNN p.1 (hwb p (List.mem_append_right mnn hp))
      · subst hn
        exact stepAdds_lengthscale
    · split at hn
      · simp only [List.map_cons, List.map_nil, List.mem_singleton] at hn
        subst hn
        exact stepAdds_lengthscale
      · simp at hn
  · simp only [List.map_cons, List.map_nil, List.mem_singleton] at hn
    subst hn
    exact stepAdds_noise

/-- C7: at `RandomGP` construction — the GP schema built by
`VectorizedGP.__init__` with supported family strings, the NN
sub-modules exposing weight/bias parameters, and distinct parameter
names — the prior-dist registry built by the `__init__` loop carries
exactly the GP parameter names in the same order, and the zip alignment
assertion between the two name sequences passes. -/
theorem prior_gp_alignment_spec (d f : ℕ) (covar mean : PyStr)
    (mnn knn : List (PyStr × List ℕ))
    (hmean : mean = nnStr ∨ mean = constantStr)
    (hcovar : covar = nnStr ∨ covar = seStr)
    (hnd : ((gp_schema_raw d f covar mean mnn knn).map Prod.fst).Nodup)
    (hwb : ∀ p ∈ mnn ++ knn, containsChars weightName p.1 = true
        ∨ containsChars biasName p.1 = true) :
    VectorizedGP_schema d f covar mean mnn knn
        = .ok (gp_schema_raw d f covar mean mnn knn)
      ∧ param_dist_names ((gp_schema_raw d f covar mean mnn knn).map Prod.fst) []
        = .ok ((gp_schema_raw d f covar mean mnn knn).map Prod.fst)
      ∧ prior_gp_aligned ((gp_schema_raw d f covar mean mnn knn).map Prod.fst)
          ((gp_schema_raw d f covar mean mnn knn).map Prod.fst) = true := by
  refine ⟨VectorizedGP_schema_ok d f covar mean mnn knn hmean hcovar hnd, ?_,
    prior_gp_aligned_self _⟩
  have h := param_dist_names_adds ((gp_schema_raw d f covar mean mnn knn).map Prod.fst) []
    (stepAdds_all d f covar mean mnn knn hwb) (by simpa using hnd)
  simpa using h

/-- Witness for C7 at the constant-mean / SE-kernel configuration. -/
theorem prior_gp_alignment_spec_witness :
    VectorizedGP_schema 1 1 seStr constantStr [] []
        = .ok (gp_schema_raw 1 1 seStr constantStr [] [])
      ∧ param_dist_names ((gp_schema_raw 1 1 seStr constantStr [] []).map Prod.fst) []
        = .ok ((gp_schema_raw 1 1 seStr constantStr [] []).map Prod.fst)
      ∧ prior_gp_aligned ((gp_schema_raw 1 1 seStr constantStr [] []).map Prod.fst)
          ((gp_schema_raw 1 1 seStr constantStr [] []).map Prod.fst) = true :=
  prior_gp_alignment_spec 1 1 seStr constantStr [] [] (Or.inr rfl) (Or.inr rfl)
    (by decide) (by simp)

/-- C8: constructing the GP model or the MetaLearner with a mean-family
string outside {NN, constant} or a kernel-family string outside {NN, SE}
fails loudly (`NotImplementedError` in `VectorizedGP.__init__`, an
assertion failure in the MetaLearner validation — a mean of "zero"
passes the first assertion but fails `_setup_model_inference`); with
families inside those sets the validation passes and, when the schema's
parameter names are distinct, the GP construction succeeds. -/
theorem family_validation_spec (d f : ℕ) (covar mean : PyStr)
    (mnn knn : List (PyStr × List ℕ))
    (hnd : ((gp_schema_raw d f covar mean mnn knn).map Prod.fst).Nodup) :
    ((metaLearner_family_check mean covar).isOk = true
        ↔ ((mean = nnStr ∨ mean = constantStr) ∧ (covar = nnStr ∨ covar = seStr)))
      ∧ ((VectorizedGP_schema d f covar mean mnn knn).isOk = true
        ↔ ((mean = nnStr ∨ mean = constantStr) ∧ (covar = nnStr ∨ covar = seStr))) := by
  refine ⟨metaLearner_family_check_ok_iff mean covar, ?_, ?_⟩
  · intro hok
    by_contra hbad
    rw [VectorizedGP_schema_error d f covar mean mnn knn hbad] at hok
    exact Bool.false_ne_true hok
  · intro hsupp
    rw [VectorizedGP_schema_ok d f covar mean mnn knn hsupp.1 hsupp.2 hnd]
    rfl

/-- Witness for C8: the unsupported mean family "zero" (which passes
the MetaLearner's first assertion) is rejected by both constructions. -/
theorem family_validation_spec_witness :
    ((metaLearner_family_check zeroStr seStr).isOk = true
        ↔ ((zeroStr = nnStr ∨ zeroStr = constantStr) ∧ (seStr = nnStr ∨ seStr = seStr)))
      ∧ ((VectorizedGP_schema 1 1 seStr zeroStr [] []).isOk = true
        ↔ ((zeroStr = nnStr ∨ zeroStr = constantStr) ∧ (seStr = nnStr ∨ seStr = seStr))) :=
  family_validation_spec 1 1 seStr zeroStr [] [] (by decide)

/-- C1: for every mini-batch of tasks, the training loss computed by
`get_neg_elbo` equals the negation of the mean, over the batch of
`svi_batch_size` reparameterized posterior samples, of the log-joint of
the sampled parameter vector over the sampled tasks minus
`prior_factor` times the posterior log-density of the same sample. -/
theorem get_neg_elbo_spec (m : GPRegressionMetaLearnedVI) (param_sample : List (List ℝ))
    (tasks_dicts : List TaskData) (h : param_sample.length = m.svi_batch_size) :
    m.get_neg_elbo param_sample tasks_dicts
      = -((param_sample.map (fun p => log_joint_tasks m p tasks_dicts
            - m.prior_factor * catLogProb m.posterior p)).sum / m.svi_batch_size) :=
  get_neg_elbo_eq m param_sample tasks_dicts h

/-- Witness for C1 at a one-sample batch and a single one-point task. -/
theorem get_neg_elbo_spec_witness :
    (⟨1, 1, 1, [PDist.normal [0] [1]], [PDist.normal [0] [1]]⟩ :
        GPRegressionMetaLearnedVI).get_neg_elbo [[0, 1, 1]] [([[0]], [0])]
      = -((([[0, 1, 1]] : List (List ℝ)).map (fun p =>
            log_joint_tasks ⟨1, 1, 1, [PDist.normal [0] [1]], [PDist.normal [0] [1]]⟩ p
              [([[0]], [0])]
            - (1 : ℝ) * catLogProb [PDist.normal [0] [1]] p)).sum / ((1 : ℕ) : ℝ)) :=
  get_neg_elbo_spec ⟨1, 1, 1, [PDist.normal [0] [1]], [PDist.normal [0] [1]]⟩
    [[0, 1, 1]] [([[0]], [0])] rfl

/-- C2: `RandomGP.log_prob(params, x_data, y_data)` is, batch element by
batch element over the leading sample dimension, `prior_factor` times
the joint prior log-density of the sample plus the GP marginal
log-likelihood of the data tuple under the GP parameterized by the same
sample. -/
theorem RandomGP_log_prob_spec (g : RandomGP) (params : List (List ℝ))
    (x_data : List (List (List ℝ))) (y_data : List (List ℝ))
    (hx : params.length = x_data.length) (hy : params.length = y_data.length) :
    g.log_prob params x_data y_data
      = (params.zip (x_data.zip y_data)).map
          (fun q => g.prior_factor * catLogProb g.hyper_prior q.1
            + mll g.input_dim q.1 q.2.1 q.2.2) :=
  RandomGP.log_prob_eq g params x_data y_data hx hy

/-- Witness for C2 at a one-sample batch. -/
theorem RandomGP_log_prob_spec_witness :
    (⟨1, 1, [PDist.normal [0] [1]]⟩ : RandomGP).log_prob [[0, 1, 1]] [[[0]]] [[0]]
      = (([[0, 1, 1]] : List (List ℝ)).zip (([[[0]]] : List (List (List ℝ))).zip
            ([[0]] : List (List ℝ)))).map
          (fun q => (1 : ℝ) * catLogProb [PDist.normal [0] [1]] q.1
            + mll 1 q.1 q.2.1 q.2.2) :=
  RandomGP_log_prob_spec ⟨1, 1, [PDist.normal [0] [1]]⟩ [[0, 1, 1]] [[[0]]] [[0]] rfl rfl

/-- C3: for every ordered sequence of member distributions and every
draw from the joint `CatDist`, `log_prob` applied to the concatenated
sample equals the sum of each member's log-density on its slice of the
sample (slices taken in construction order with each member's event
size), and on a batch of draws this holds batch element by element. -/
theorem catDist_logProb_spec (ds : List PDist) (draws : List (List ℝ))
    (h : DrawsFit ds draws) (batch : List (List (List ℝ)))
    (hb : ∀ dr ∈ batch, DrawsFit ds dr) :
    catLogProb ds (catSampleOfDraws draws)
        = ((ds.zip draws).map (fun p => p.1.logp p.2)).sum
      ∧ catLogProbBatched ds (batch.map catSampleOfDraws)
        = batch.map (fun dr => ((ds.zip dr).map (fun p => p.1.logp p.2)).sum) := by
  constructor
  · exact catLogProb_join ds draws h
  · unfold catLogProbBatched
    rw [List.map_map]
    apply List.map_congr_left
    intro dr hdr
    exact catLogProb_join ds dr (hb dr hdr)

/-- Witness for C3 with a two-member schema (sizes 1 and 2). -/
theorem catDist_logProb_spec_witness :
    catLogProb [PDist.normal [0] [1], PDist.logNormal [0, 0] [1, 1]]
        (catSampleOfDraws [[1], [2, 3]])
      = (([PDist.normal [0] [1], PDist.logNormal [0, 0] [1, 1]].zip
          ([[1], [2, 3]] : List (List ℝ))).map (fun p => p.1.logp p.2)).sum :=
  (catDist_logProb_spec [PDist.normal [0] [1], PDist.logNormal [0, 0] [1, 1]]
    [[1], [2, 3]] (List.Forall₂.cons rfl (List.Forall₂.cons rfl List.Forall₂.nil))
    [] (by simp)).1

/-- C6: for a fixed posterior parameter sample, the negative ELBO is
unchanged under any permutation of the tasks within the mini-batch, but
it is not invariant to which tasks are sampled into the batch: two
equal-size batches of different tasks can give different losses. -/
theorem get_neg_elbo_perm_spec :
    (∀ (m : GPRegressionMetaLearnedVI) (s : List (List ℝ)) (t1 t2 : List TaskData),
        s.length = m.svi_batch_size → t1.Perm t2 →
        m.get_neg_elbo s t1 = m.get_neg_elbo s t2)
      ∧ (∃ (m : GPRegressionMetaLearnedVI) (s : List (List ℝ)) (t1 t2 : List TaskData),
          s.length = m.svi_batch_size ∧ t1.length = t2.length
            ∧ m.get_neg_elbo s t1 ≠ m.get_neg_elbo s t2) := by
  constructor
  · intro m s t1 t2 h hperm
    rw [get_neg_elbo_eq m s t1 h, get_neg_elbo_eq m s t2 h]
    have hlj : ∀ p, log_joint_tasks m p t1 = log_joint_tasks m p t2 := by
      intro p
      unfold log_joint_tasks
      rw [(hperm.map (fun t => mll m.input_dim p t.1 t.2)).sum_eq]
    simp only [hlj]
  · refine ⟨⟨1, 1, 1, [PDist.normal [0] [1]], [PDist.normal [0] [1]]⟩,
      [[0, 1, 1]], [([[0]], [0])], [([[0]], [2])], rfl, rfl, ?_⟩
    intro hEq
    rw [get_neg_elbo_eq _ _ _ rfl, get_neg_elbo_eq _ _ _ rfl] at hEq
    simp only [log_joint_tasks, List.map_cons, List.map_nil, List.sum_cons,
      List.sum_nil] at hEq
    rw [mll_single, mll_single] at hEq
    norm_num at hEq
    linarith

/-- Witness for C6's universally quantified part: swapping the two
tasks of a batch leaves the negative ELBO unchanged. -/
theorem get_neg_elbo_perm_spec_witness :
    (⟨1, 1, 1, [PDist.normal [0] [1]], [PDist.normal [0] [1]]⟩ :
        GPRegressionMetaLearnedVI).get_neg_elbo [[0, 1, 1]]
        [([[0]], [0]), ([[1]], [1])]
      = (⟨1, 1, 1, [PDist.normal [0] [1]], [PDist.normal [0] [1]]⟩ :
        GPRegressionMetaLearnedVI).get_neg_elbo [[0, 1, 1]]
        [([[1]], [1]), ([[0]], [0])] :=
  get_neg_elbo_perm_spec.1 _ _ _ _ rfl (List.Perm.swap _ _ _)
